import Mathlib

/-!
Verification of the obsidian-opentime-export core against its specification.

The definitions below are a shallow embedding of the TypeScript sources:

* `src/ElysiumExporter.ts` — filename sanitization, single-file merge,
  per-item export (`sanitizedFilename`, `mergeItems`, `exportSingleFile`,
  `exportItem`, `exportDocument`);
* `src/ElysiumItemReader.ts` — the hand-rolled document serializer and its
  scalar quoting rule (`serializeDocument`, `serializeItem`, `quote`);
* `src/parsers/TasksParser.ts`, `src/parsers/DayPlannerParser.ts`,
  `src/parsers/FrontmatterParser.ts` — the three format parsers.

JavaScript strings are modelled as Lean `String` (a list of Unicode code
points); machine numbers that the code only ever uses integrally
(`priority`, `estimate_minutes`, `progress`, minute arithmetic) are
modelled as `Int`/`Nat`.  Functions of the repository that live in files
absent from the source drop (`types/opentime.ts`'s `generateId`,
`OpenTimeExporter.export`) and the third-party YAML decoder (`js-yaml`'s
`load`, used through `readDocument`) are modelled from the spec where a
claim needs them; each such definition carries a `Modelled from the spec:`
doc comment.
-/

namespace OTExport

/-! ## Character-level utilities

`isJsSpace` is the ECMAScript `\s` character class (WhiteSpace ∪
LineTerminator), which `String.prototype.trim` and the `\s` of the
regexes in the sources use. -/

def isJsSpace (c : Char) : Bool :=
  c = ' ' || c = '\t' || c = '\n' || c = '\r' ||
  c = Char.ofNat 11 || c = Char.ofNat 12 ||
  c = Char.ofNat 0xa0 || c = Char.ofNat 0x1680 ||
  (0x2000 ≤ c.toNat && c.toNat ≤ 0x200a) ||
  c = Char.ofNat 0x2028 || c = Char.ofNat 0x2029 || c = Char.ofNat 0x202f ||
  c = Char.ofNat 0x205f || c = Char.ofNat 0x3000 || c = Char.ofNat 0xfeff

/-- Drop the longest suffix of characters satisfying `p`. -/
def dropTrailing (p : Char → Bool) (cs : List Char) : List Char :=
  (cs.reverse.dropWhile p).reverse

/-- ECMAScript `String.prototype.trim`: strip `\s` from both ends. -/
def jsTrim (cs : List Char) : List Char :=
  dropTrailing isJsSpace (cs.dropWhile isJsSpace)

/-- Replace every maximal run of characters satisfying `p` by a single
`'-'`; the boolean flag records whether the previous character was part
of such a run (this is `str.replace(/[…]+/g, '-')`). -/
def collapseRunsAux (p : Char → Bool) : Bool → List Char → List Char
  | _, [] => []
  | inRun, c :: cs =>
    if p c then
      if inRun then collapseRunsAux p true cs
      else '-' :: collapseRunsAux p true cs
    else c :: collapseRunsAux p false cs

def collapseRuns (p : Char → Bool) (cs : List Char) : List Char :=
  collapseRunsAux p false cs

/-! ## The item data model (`types/opentime.ts`)

The TypeScript model is a tagged union of seven variants.  The
serializer and the decoder, however, both work on plain JavaScript
objects whose fields are whatever keys happen to be present, so the
faithful embedding is a single structure with a type tag and optional
fields (a field that is `none` is an absent / `undefined` key).  Fields
the core never reads or writes (`steps`, `links`, `categories`,
`days_of_week`, …) are not modelled. -/

inductive ItemType
  | goal | task | habit | reminder | event | appointment | project
  deriving Repr, DecidableEq

/-- The serialized (lowercase) name of an item type. -/
def ItemType.str : ItemType → String
  | .goal => "goal"
  | .task => "task"
  | .habit => "habit"
  | .reminder => "reminder"
  | .event => "event"
  | .appointment => "appointment"
  | .project => "project"

structure XObsidian where
  source_file : String
  folder_path : Option String := none
  line_number : Option Int := none
  original_text : Option String := none
  deriving Repr, DecidableEq

structure XElysium where
  obsidian_enabled : Bool
  obsidian_vault_name : Option String := none
  obsidian_folder_path : Option String := none
  obsidian_source_file : Option String := none
  obsidian_behavior : Option String := none
  deriving Repr, DecidableEq

structure HabitPattern where
  freq : Option String := none
  deriving Repr, DecidableEq

structure OpenTimeItem where
  type : ItemType
  id : Option String := none
  title : Option String := none
  kind : Option String := none
  target_date : Option String := none
  progress : Option Int := none
  project_id : Option String := none
  status : Option String := none
  due : Option String := none
  scheduled_start : Option String := none
  estimate_minutes : Option Int := none
  priority : Option Int := none
  goal_id : Option String := none
  pattern : Option HabitPattern := none
  time : Option String := none
  «repeat» : Option String := none
  start : Option String := none
  «end» : Option String := none
  all_day : Option Bool := none
  timezone : Option String := none
  location : Option String := none
  attendees : Option (List String) := none
  tags : Option (List String) := none
  notes : Option String := none
  x_obsidian : Option XObsidian := none
  x_elysium : Option XElysium := none
  deriving Repr, DecidableEq

structure OpenTimeDocument where
  opentime_version : Option String := none
  default_timezone : Option String := none
  generated_by : Option String := none
  created_at : Option String := none
  items : List OpenTimeItem := []
  deriving Repr, DecidableEq

/-- JavaScript truthiness of an optional string (`undefined` and `""` are
falsy). -/
def jsTruthy : Option String → Bool
  | none => false
  | some s => s ≠ ""

/-- JavaScript `a || b` for an optional string versus a default. -/
def jsOr (o : Option String) (dflt : String) : String :=
  match o with
  | some s => if s = "" then dflt else s
  | none => dflt

/-! ## Scalar quoting (`ElysiumItemReader.quote`) -/

/-- The character class of the `needsQuotes` regex in
`ElysiumItemReader.quote`.  The apostrophe and the backquote are written
via their code points (39 and 96). -/
def isSpecialScalarChar (c : Char) : Bool :=
  c = ':' || c = '#' || c = '[' || c = ']' || c = '{' || c = '}' ||
  c = '|' || c = '>' || c = '&' || c = '*' || c = '?' || c = '!' ||
  c = ',' || c = Char.ofNat 39 || c = '"' || c = '%' || c = '@' ||
  c = Char.ofNat 96

def startsWithJsSpace : List Char → Bool
  | [] => false
  | c :: _ => isJsSpace c

def endsWithJsSpace (cs : List Char) : Bool :=
  match cs.getLast? with
  | none => false
  | some c => isJsSpace c

/-- The `^-\s` alternative of the regex: a dash followed by a whitespace
character. -/
def startsDashJsSpace : List Char → Bool
  | '-' :: c :: _ => isJsSpace c
  | _ => false

/-- The `needsQuotes` regex test of `ElysiumItemReader.quote`:
`/[:#\x5b\x5d\x7b\x7d|>&*?!,'"%@\x60]|^\s|\s$|^-\s|^$/`. -/
def needsQuotes (s : String) : Bool :=
  s.data.any isSpecialScalarChar || startsWithJsSpace s.data ||
  endsWithJsSpace s.data || startsDashJsSpace s.data || s.data.isEmpty

/-- The escaping done in the quoted branch:
`value.replace(/"/g, '\\"').replace(/\n/g, '\\n')`.  The second pass
only rewrites `'\n'` characters, which the first pass never produces, so
the composition is a single character-by-character expansion. -/
def escapeQuoted (cs : List Char) : List Char :=
  cs.flatMap fun c =>
    if c = '"' then ['\\', '"'] else if c = '\n' then ['\\', 'n'] else [c]

/-- `ElysiumItemReader.quote`: wrap in double quotes (escaping) when the
regex fires or the value contains a newline, otherwise emit bare. -/
def quote (s : String) : String :=
  if needsQuotes s || s.data.contains '\n' then
    ⟨'"' :: (escapeQuoted s.data ++ ['"'])⟩
  else s

/-! ## Filename sanitization (`ElysiumExporter.sanitizedFilename`)

`toLowerCase` is modelled as ASCII lowering (`Char.toLower`); the two
differ only on a handful of non-ASCII code points that the later
`[^a-z0-9-]` strip removes in either case. -/

def keepFilenameChar (c : Char) : Bool :=
  ('a' ≤ c && c ≤ 'z') || ('0' ≤ c && c ≤ '9') || c = '-'

def trimHyphens (cs : List Char) : List Char :=
  dropTrailing (· = '-') (cs.dropWhile (· = '-'))

/-- The sanitized core of the filename, step for step as in
`ElysiumExporter.sanitizedFilename`. -/
def sanitizedCore (title : String) : List Char :=
  let s1 := jsTrim (title.data.map Char.toLower)
  let s2 := collapseRuns (fun c => isJsSpace c || c = '_') s1
  let s3 := s2.filter keepFilenameChar
  let s4 := collapseRuns (· = '-') s3
  let s5 := trimHyphens s4
  let s6 := if s5.length > 50 then dropTrailing (· = '-') (s5.take 50) else s5
  if s6.isEmpty then "untitled".data else s6

/-- `ElysiumExporter.sanitizedFilename`: the per-item filename
`elysium-{type}-{sanitizedTitle}.ot`. -/
def sanitizedFilename (title : String) (ty : ItemType) : String :=
  "elysium-" ++ ⟨ty.str.data.map Char.toLower⟩ ++ "-" ++ ⟨sanitizedCore title⟩ ++ ".ot"

/-! ## Claim-side definitions for the quoting rule (C3) -/

/-- The quoting condition exactly as the claim words it: one of the
special characters, leading or trailing whitespace, a contained newline,
a leading literal `"- "` (dash, space), or the empty string. -/
def claimNeedsQuotes (s : String) : Bool :=
  s.data.any isSpecialScalarChar || startsWithJsSpace s.data ||
  endsWithJsSpace s.data || s.data.contains '\n' ||
  (match s.data with | '-' :: ' ' :: _ => true | _ => false) || s.data.isEmpty

/-- The claim's condition amended at one point: the code's regex
alternative `^-\s` fires on a dash followed by any whitespace character,
not only on a literal `"- "`. -/
def claimNeedsQuotesAmended (s : String) : Bool :=
  s.data.any isSpecialScalarChar || startsWithJsSpace s.data ||
  endsWithJsSpace s.data || s.data.contains '\n' ||
  startsDashJsSpace s.data || s.data.isEmpty

theorem needsQuotes_eq_amended (s : String) :
    (needsQuotes s || s.data.contains '\n') = claimNeedsQuotesAmended s := by
  unfold needsQuotes claimNeedsQuotesAmended
  rw [Bool.eq_iff_iff]
  simp only [Bool.or_eq_true]
  tauto

/-! ## Claim-side definition for filename sanitization (C8) -/

/-- The claim's filename pipeline, taken at its word: after collapsing and
hyphen-trimming it truncates to 50 characters and goes straight to the
empty-fallback check, with no second trim of hyphens exposed by the cut. -/
def claimFilenameCoreUntrimmed (title : String) : List Char :=
  let s1 := jsTrim (title.data.map Char.toLower)
  let s2 := collapseRuns (fun c => isJsSpace c || c = '_') s1
  let s3 := s2.filter keepFilenameChar
  let s4 := collapseRuns (· = '-') s3
  let s5 := trimHyphens s4
  let s6 := s5.take 50
  if s6.isEmpty then "untitled".data else s6

def claimFilenameUntrimmed (title : String) (ty : ItemType) : String :=
  "elysium-" ++ ty.str ++ "-" ++ ⟨claimFilenameCoreUntrimmed title⟩ ++ ".ot"

/-- The claim's pipeline amended at the truncation step: truncating to 50
characters also removes the hyphens the cut may expose at the end (the
source does `substring(0, 50)` followed by a trailing-hyphen strip). -/
def claimFilenameCore (title : String) : List Char :=
  let s1 := jsTrim (title.data.map Char.toLower)
  let s2 := collapseRuns (fun c => isJsSpace c || c = '_') s1
  let s3 := s2.filter keepFilenameChar
  let s4 := collapseRuns (· = '-') s3
  let s5 := trimHyphens s4
  let s6 := dropTrailing (· = '-') (s5.take 50)
  if s6.isEmpty then "untitled".data else s6

def claimFilename (title : String) (ty : ItemType) : String :=
  "elysium-" ++ ty.str ++ "-" ++ ⟨claimFilenameCore title⟩ ++ ".ot"

theorem dropWhile_dropWhile (p : Char → Bool) (l : List Char) :
    (l.dropWhile p).dropWhile p = l.dropWhile p := by
  induction l with
  | nil => rfl
  | cons c cs ih =>
    by_cases h : p c
    · simp [List.dropWhile_cons, h, ih]
    · simp [List.dropWhile_cons, h]

theorem dropTrailing_trimHyphens (cs : List Char) :
    dropTrailing (· = '-') (trimHyphens cs) = trimHyphens cs := by
  unfold trimHyphens dropTrailing
  rw [List.reverse_reverse, dropWhile_dropWhile]

theorem typeStr_lower (ty : ItemType) :
    (⟨ty.str.data.map Char.toLower⟩ : String) = ty.str := by
  cases ty <;> decide

theorem sanitizedCore_eq_claim (title : String) :
    sanitizedCore title = claimFilenameCore title := by
  unfold sanitizedCore claimFilenameCore
  simp only []
  by_cases h : (trimHyphens (collapseRuns (· = '-')
      ((collapseRuns (fun c => isJsSpace c || c = '_')
        (jsTrim (title.data.map Char.toLower))).filter keepFilenameChar))).length > 50
  · rw [if_pos h]
  · rw [if_neg h]
    rw [List.take_of_length_le (by omega), dropTrailing_trimHyphens]

/-- C3 (amended): a scalar is emitted double-quoted (with internal double
quotes and newlines backslash-escaped) exactly when it contains one of the
special characters, has leading or trailing whitespace, contains a
newline, begins with a dash followed by a whitespace character (amended
from the claim's literal `"- "`), or is empty; otherwise it is emitted
bare — in particular a plain alphanumeric word is bare, the empty string,
a colon-bearing string and a `"- "`-prefixed string are quoted. -/
theorem claim_C3 :
    (∀ s : String, quote s =
      if claimNeedsQuotesAmended s then (⟨'"' :: (escapeQuoted s.data ++ ['"'])⟩ : String)
      else s)
    ∧ quote "Standup123" = "Standup123"
    ∧ quote "" = "\"\""
    ∧ quote "a:b" = "\"a:b\""
    ∧ quote "- x" = "\"- x\"" := by
  refine ⟨fun s => ?_, by decide, by decide, by decide, by decide⟩
  unfold quote
  rw [needsQuotes_eq_amended]

/-- C3 counterexample: the string `"-\tx"` (dash, tab, letter) satisfies
none of the conditions of the claim as stated — no special character, no
leading or trailing whitespace, no newline, does not begin with the
literal `"- "`, not empty — yet the code emits it double-quoted, because
the regex alternative for a leading dash accepts any following whitespace
character, not only a space. -/
theorem claim_C3_counterexample :
    claimNeedsQuotes "-\tx" = false ∧ quote "-\tx" = "\"-\tx\"" ∧
    ("\"-\tx\"" : String) ≠ "-\tx" := by
  refine ⟨by decide, by decide, by decide⟩

/-- C8 (amended): the per-item filename is the claim's pipeline with the
truncation step amended to also strip the hyphens the 50-character cut
exposes at the end; in particular title `"Review PR #123!"` with type
`task` yields exactly `elysium-task-review-pr-123.ot`. -/
theorem claim_C8 :
    (∀ (title : String) (ty : ItemType),
      sanitizedFilename title ty = claimFilename title ty)
    ∧ sanitizedFilename "Review PR #123!" .task = "elysium-task-review-pr-123.ot" := by
  refine ⟨fun title ty => ?_, by decide⟩
  unfold sanitizedFilename claimFilename
  rw [typeStr_lower, sanitizedCore_eq_claim]

/-- C8 counterexample: for the 51-character title of 49 `a`s followed by
`-b`, the code truncates to 50 characters and then strips the exposed
trailing hyphen, producing `elysium-task-aaa…a.ot`, while the claim's
pipeline as stated (truncate to 50, no second hyphen strip) keeps the
trailing hyphen. -/
theorem claim_C8_counterexample :
    sanitizedFilename (⟨List.replicate 49 'a' ++ ['-', 'b']⟩ : String) .task ≠
    claimFilenameUntrimmed (⟨List.replicate 49 'a' ++ ['-', 'b']⟩ : String) .task := by
  decide

/-! ## The single-file merge (`ElysiumExporter.exportSingleFile`, lines 135–155)

The JavaScript `Map` keyed by `id` is embedded as an association list of
items in insertion order: `Map.prototype.set` replaces the value in
place when the key is already bound (keeping its position) and appends
otherwise, and `Array.from(map.values())` is the list itself. -/

def mapSet : List OpenTimeItem → OpenTimeItem → List OpenTimeItem
  | [], x => [x]
  | y :: ys, x => if y.id = x.id then x :: ys else y :: mapSet ys x

/-- The merge of `exportSingleFile`: seed the map with the existing
items, then overwrite/append the freshly parsed ones. -/
def mergeItems (existing fresh : List OpenTimeItem) : List OpenTimeItem :=
  (existing ++ fresh).foldl mapSet []

def itemIds (l : List OpenTimeItem) : List (Option String) :=
  l.map (·.id)

/-- First item with the given id, the by-id lookup a document offers. -/
def lookupById (l : List OpenTimeItem) (i : Option String) : Option OpenTimeItem :=
  l.find? (fun it => it.id = i)

/-- The item the merged file keeps for a prior item `a`: the fresh list's
version of `a.id` when there is one, otherwise `a` itself. -/
def updFrom (B : List OpenTimeItem) (a : OpenTimeItem) : OpenTimeItem :=
  (lookupById B a.id).getD a

theorem lookupById_cons_pos {x : OpenTimeItem} {l : List OpenTimeItem}
    {i : Option String} (h : x.id = i) : lookupById (x :: l) i = some x := by
  simp [lookupById, List.find?_cons, h]

theorem lookupById_cons_neg {x : OpenTimeItem} {l : List OpenTimeItem}
    {i : Option String} (h : ¬ x.id = i) : lookupById (x :: l) i = lookupById l i := by
  simp [lookupById, List.find?_cons, h]

theorem mapSet_of_not_mem (m : List OpenTimeItem) (x : OpenTimeItem)
    (h : x.id ∉ itemIds m) : mapSet m x = m ++ [x] := by
  induction m with
  | nil => rfl
  | cons y ys ih =>
    simp only [itemIds, List.map_cons, List.mem_cons] at h
    push_neg at h
    have hne : ¬ (y.id = x.id) := fun hy => h.1 hy.symm
    simp only [mapSet, if_neg hne, List.cons_append]
    exact congrArg (y :: ·) (ih h.2)

theorem foldl_mapSet_fresh (A : List OpenTimeItem) :
    ∀ m : List OpenTimeItem, (∀ a ∈ A, a.id ∉ itemIds m) →
    (itemIds A).Nodup → List.foldl mapSet m A = m ++ A := by
  induction A with
  | nil => intro m _ _; simp
  | cons a A ih =>
    intro m hfresh hnd
    simp only [itemIds, List.map_cons, List.nodup_cons] at hnd
    rw [List.foldl_cons, mapSet_of_not_mem m a (hfresh a (by simp))]
    rw [ih (m ++ [a]) ?_ hnd.2]
    · simp
    · intro x hx
      simp only [itemIds, List.map_append, List.map_cons, List.map_nil,
        List.mem_append, List.mem_singleton]
      push_neg
      refine ⟨hfresh x (by simp [hx]), fun hxa => ?_⟩
      exact hnd.1 (hxa ▸ List.mem_map_of_mem (·.id) hx)

theorem mapSet_of_mem (m : List OpenTimeItem) (x : OpenTimeItem)
    (hnd : (itemIds m).Nodup) (h : x.id ∈ itemIds m) :
    mapSet m x = m.map (fun y => if y.id = x.id then x else y) := by
  induction m with
  | nil => simp [itemIds] at h
  | cons y ys ih =>
    simp only [itemIds, List.map_cons, List.nodup_cons, List.mem_cons] at hnd h
    simp only [mapSet, List.map_cons]
    by_cases hy : y.id = x.id
    · rw [if_pos hy, if_pos hy]
      have hz : ∀ z ∈ ys, ¬ z.id = x.id := by
        intro z hz hzx
        apply hnd.1
        rw [hy, ← hzx]
        exact List.mem_map_of_mem (·.id) hz
      have : ys.map (fun z => if z.id = x.id then x else z) = ys.map (fun z => z) :=
        List.map_congr_left (fun z hzm => if_neg (hz z hzm))
      rw [this, List.map_id']
    · rw [if_neg hy, if_neg hy]
      rcases h with h | h
      · exact absurd h.symm hy
      · rw [ih hnd.2 h]

theorem itemIds_replace (m : List OpenTimeItem) (x : OpenTimeItem) :
    itemIds (m.map (fun y => if y.id = x.id then x else y)) = itemIds m := by
  simp only [itemIds, List.map_map]
  refine List.map_congr_left fun y _ => ?_
  by_cases hy : y.id = x.id
  · simp [Function.comp, hy]
  · simp [Function.comp, hy]

theorem lookupById_eq_none (B : List OpenTimeItem) (i : Option String)
    (h : i ∉ itemIds B) : lookupById B i = none := by
  rw [lookupById, List.find?_eq_none]
  intro x hx
  simp only [decide_eq_true_eq]
  intro hxi
  exact h (hxi ▸ List.mem_map_of_mem (·.id) hx)

theorem updFrom_self {B : List OpenTimeItem} {y : OpenTimeItem}
    (h : y.id ∉ itemIds B) : updFrom B y = y := by
  rw [updFrom, lookupById_eq_none B y.id h, Option.getD_none]

theorem updFrom_cons_eq {B : List OpenTimeItem} {b y : OpenTimeItem}
    (h : y.id = b.id) : updFrom (b :: B) y = b := by
  rw [updFrom, lookupById_cons_pos h.symm, Option.getD_some]

theorem updFrom_cons_ne {B : List OpenTimeItem} {b y : OpenTimeItem}
    (h : ¬ y.id = b.id) : updFrom (b :: B) y = updFrom B y := by
  rw [updFrom, updFrom, lookupById_cons_neg (fun hh => h hh.symm)]

theorem foldl_mapSet_merge (B : List OpenTimeItem) :
    ∀ M : List OpenTimeItem, (itemIds M).Nodup → (itemIds B).Nodup →
    List.foldl mapSet M B =
      M.map (updFrom B) ++ B.filter (fun b => b.id ∉ itemIds M) := by
  induction B with
  | nil =>
    intro M _ _
    simp only [List.foldl_nil, List.filter_nil, List.append_nil]
    have : M.map (updFrom []) = M.map (fun a => a) :=
      List.map_congr_left (fun a _ => by simp [updFrom, lookupById])
    rw [this, List.map_id']
  | cons b B ih =>
    intro M hM hB
    simp only [itemIds, List.map_cons, List.nodup_cons] at hB
    have hbB : b.id ∉ itemIds B := hB.1
    rw [List.foldl_cons]
    by_cases hmem : b.id ∈ itemIds M
    · rw [mapSet_of_mem M b hM hmem]
      rw [ih _ (by rw [itemIds_replace M b]; exact hM) hB.2]
      congr 1
      · rw [List.map_map]
        refine List.map_congr_left fun y hy => ?_
        by_cases hy' : y.id = b.id
        · show updFrom B (if y.id = b.id then b else y) = updFrom (b :: B) y
          rw [if_pos hy', updFrom_cons_eq hy', updFrom_self hbB]
        · show updFrom B (if y.id = b.id then b else y) = updFrom (b :: B) y
          rw [if_neg hy', updFrom_cons_ne hy']
      · rw [itemIds_replace M b, List.filter_cons]
        rw [if_neg (by simp [hmem])]
    · rw [mapSet_of_not_mem M b hmem]
      have hnd' : (itemIds (M ++ [b])).Nodup := by
        simp only [itemIds, List.map_append, List.map_cons, List.map_nil]
        rw [List.nodup_append]
        refine ⟨hM, List.nodup_singleton _, ?_⟩
        intro i hi
        simp only [List.mem_singleton]
        intro hib
        exact hmem (hib ▸ hi)
      rw [ih _ hnd' hB.2]
      have h1 : (M ++ [b]).map (updFrom B) = M.map (updFrom B) ++ [updFrom B b] := by
        simp
      have h2 : updFrom B b = b := updFrom_self hbB
      have h3 : M.map (updFrom B) = M.map (updFrom (b :: B)) := by
        refine List.map_congr_left fun y hy => ?_
        have hyb : ¬ y.id = b.id := fun h =>
          hmem (h ▸ List.mem_map_of_mem (·.id) hy)
        rw [updFrom_cons_ne hyb]
      have h4 : B.filter (fun x => x.id ∉ itemIds (M ++ [b])) =
          B.filter (fun x => x.id ∉ itemIds M) := by
        refine List.filter_congr fun x hx => ?_
        have hxb : ¬ x.id = b.id := fun h =>
          hbB (h ▸ List.mem_map_of_mem (·.id) hx)
        simp only [itemIds, List.map_append, List.map_cons, List.map_nil,
          List.mem_append, List.mem_singleton, decide_eq_decide]
        tauto
      rw [h1, h2, h3, h4, List.filter_cons]
      rw [if_pos (by simp [hmem])]
      simp

/-- The insertion-order characterization of the merge: prior items first,
in order, each replaced by the fresh list's version of its id when there
is one, followed by the fresh items with new ids, in order. -/
theorem mergeItems_eq (A B : List OpenTimeItem)
    (hA : (itemIds A).Nodup) (hB : (itemIds B).Nodup) :
    mergeItems A B =
      A.map (updFrom B) ++ B.filter (fun b => b.id ∉ itemIds A) := by
  rw [mergeItems, List.foldl_append]
  rw [foldl_mapSet_fresh A [] (by simp [itemIds]) hA]
  rw [List.nil_append]
  exact foldl_mapSet_merge B A hA hB

theorem mergeItems_nil (B : List OpenTimeItem) (hB : (itemIds B).Nodup) :
    mergeItems [] B = B := by
  rw [mergeItems, List.nil_append, foldl_mapSet_fresh B [] (by simp [itemIds]) hB,
    List.nil_append]

theorem updFrom_id (B : List OpenTimeItem) (a : OpenTimeItem) :
    (updFrom B a).id = a.id := by
  rw [updFrom]
  cases hfind : lookupById B a.id with
  | none => simp
  | some b =>
    have := List.find?_some hfind
    simp only [decide_eq_true_eq] at this
    simp [this]

theorem lookupById_map_updFrom (A B : List OpenTimeItem) (i : Option String) :
    lookupById (A.map (updFrom B)) i = (lookupById A i).map (updFrom B) := by
  induction A with
  | nil => rfl
  | cons a A ih =>
    rw [List.map_cons]
    by_cases h : a.id = i
    · rw [lookupById_cons_pos ((updFrom_id B a).trans h), lookupById_cons_pos h]
      rfl
    · rw [lookupById_cons_neg (fun hh => h ((updFrom_id B a) ▸ hh)),
        lookupById_cons_neg h, ih]

theorem lookupById_isSome_of_mem {A : List OpenTimeItem} {i : Option String}
    (h : i ∈ itemIds A) : ∃ a, lookupById A i = some a ∧ a.id = i := by
  induction A with
  | nil => simp [itemIds] at h
  | cons a A ih =>
    simp only [itemIds, List.map_cons, List.mem_cons] at h
    by_cases ha : a.id = i
    · exact ⟨a, lookupById_cons_pos ha, ha⟩
    · rcases h with h | h
      · exact absurd h.symm ha
      · obtain ⟨x, hx, hxi⟩ := ih h
        exact ⟨x, (lookupById_cons_neg ha).trans hx, hxi⟩

theorem lookupById_append_left {l₁ l₂ : List OpenTimeItem} {i : Option String}
    {x : OpenTimeItem} (h : lookupById l₁ i = some x) :
    lookupById (l₁ ++ l₂) i = some x := by
  induction l₁ with
  | nil => simp [lookupById] at h
  | cons a l₁ ih =>
    by_cases ha : a.id = i
    · rw [lookupById_cons_pos ha] at h
      rw [List.cons_append, lookupById_cons_pos ha]
      exact h
    · rw [lookupById_cons_neg ha] at h
      rw [List.cons_append, lookupById_cons_neg ha]
      exact ih h

theorem length_filter_not (B : List OpenTimeItem) (p : OpenTimeItem → Bool) :
    (B.filter (fun b => !(p b))).length + (B.filter p).length = B.length := by
  induction B with
  | nil => rfl
  | cons b B ih =>
    by_cases h : p b = true <;>
      simp only [List.filter_cons, h, Bool.not_true, Bool.not_false,
        if_pos, if_neg, List.length_cons, Bool.false_eq_true, ite_true,
        ite_false] <;> omega

theorem length_filter_overId (B : List OpenTimeItem) (p : Option String → Bool) :
    (B.filter (fun b => p b.id)).length = ((itemIds B).filter p).length := by
  induction B with
  | nil => rfl
  | cons b B ih =>
    simp only [itemIds, List.map_cons, List.filter_cons] at *
    by_cases h : p b.id = true <;> simp [h, ih]

theorem length_filter_mem_comm {l₁ l₂ : List (Option String)}
    (h₁ : l₁.Nodup) (h₂ : l₂.Nodup) :
    (l₂.filter (fun i => i ∈ l₁)).length = (l₁.filter (fun i => i ∈ l₂)).length := by
  have n₂ : (l₂.filter (fun i => i ∈ l₁)).Nodup := h₂.filter _
  have n₁ : (l₁.filter (fun i => i ∈ l₂)).Nodup := h₁.filter _
  rw [← List.toFinset_card_of_nodup n₂, ← List.toFinset_card_of_nodup n₁]
  congr 1
  ext x
  simp only [List.mem_toFinset, List.mem_filter, decide_eq_true_eq]
  tauto

/-- C1: for prior items `A` and fresh items `B`, each with internally
unique ids and sharing exactly `k` ids, the single-file merge of
`ElysiumExporter.exportSingleFile` yields `|A| + |B| − k` items; every id
occurring in both lists resolves, in the merged list, to `B`'s item for
that id; and every item of `A` whose id does not occur in `B` is kept
unchanged. -/
theorem claim_C1 (A B : List OpenTimeItem) (k : Nat)
    (hA : (itemIds A).Nodup) (hB : (itemIds B).Nodup)
    (hk : ((itemIds A).filter (fun i => i ∈ itemIds B)).length = k) :
    (mergeItems A B).length = A.length + B.length - k ∧
    (∀ i, i ∈ itemIds A → i ∈ itemIds B →
      lookupById (mergeItems A B) i = lookupById B i) ∧
    (∀ a ∈ A, a.id ∉ itemIds B → a ∈ mergeItems A B) := by
  have hchar := mergeItems_eq A B hA hB
  refine ⟨?_, ?_, ?_⟩
  · rw [hchar, List.length_append, List.length_map]
    have hsplit := length_filter_not B (fun b => b.id ∈ itemIds A)
    have hmem : (B.filter (fun b => b.id ∈ itemIds A)).length = k := by
      rw [length_filter_overId B (fun i => i ∈ itemIds A),
        length_filter_mem_comm hA hB, hk]
    have hle : (B.filter (fun b => b.id ∈ itemIds A)).length ≤ B.length :=
      List.length_filter_le _ _
    have heq : (B.filter (fun b => b.id ∉ itemIds A)).length =
        (B.filter (fun b => !(decide (b.id ∈ itemIds A)))).length := by
      congr 1
      refine List.filter_congr fun x _ => ?_
      simp
    rw [heq]
    omega
  · intro i hiA hiB
    obtain ⟨a, ha, hai⟩ := lookupById_isSome_of_mem hiA
    obtain ⟨b, hb, hbi⟩ := lookupById_isSome_of_mem hiB
    rw [hchar]
    have : lookupById (A.map (updFrom B)) i = some (updFrom B a) := by
      rw [lookupById_map_updFrom, ha, Option.map_some']
    rw [lookupById_append_left this, hb]
    rw [updFrom, hai, hb, Option.getD_some]
  · intro a haA haB
    rw [hchar]
    refine List.mem_append.mpr (Or.inl ?_)
    have : updFrom B a = a := updFrom_self haB
    exact this ▸ List.mem_map_of_mem (updFrom B) haA

def itA1 : OpenTimeItem := { type := .task, id := some "a", title := some "A1" }

def itA2 : OpenTimeItem := { type := .task, id := some "b", title := some "A2" }

def itB1 : OpenTimeItem := { type := .task, id := some "b", title := some "B1" }

def itB2 : OpenTimeItem := { type := .event, id := some "c", title := some "B2" }

theorem claim_C1_witness :
    (mergeItems [itA1, itA2] [itB1, itB2]).length = 2 + 2 - 1 ∧
    lookupById (mergeItems [itA1, itA2] [itB1, itB2]) (some "b") = some itB1 ∧
    itA1 ∈ mergeItems [itA1, itA2] [itB1, itB2] := by
  obtain ⟨h1, h2, h3⟩ :=
    claim_C1 [itA1, itA2] [itB1, itB2] 1 (by decide) (by decide) (by decide)
  refine ⟨h1, ?_, h3 itA1 (by decide) (by decide)⟩
  rw [h2 (some "b") (by decide) (by decide)]
  decide

/-- C9: under the ambient document invariant that ids are unique within
each list, the merged list's order is fully determined: the prior items
first, in their original order (an item whose id also occurs in the
fresh list keeps its position but carries the fresh item's fields),
followed by the fresh items whose ids were absent from the prior file,
in their input order. -/
theorem claim_C9 (A B : List OpenTimeItem)
    (hA : (itemIds A).Nodup) (hB : (itemIds B).Nodup) :
    mergeItems A B =
      A.map (updFrom B) ++ B.filter (fun b => b.id ∉ itemIds A) :=
  mergeItems_eq A B hA hB

theorem claim_C9_witness :
    mergeItems [itA1, itA2] [itB1, itB2] = [itA1, itB1, itB2] := by
  rw [claim_C9 [itA1, itA2] [itB1, itB2] (by decide) (by decide)]
  decide

/-! ## The exporter as a state transformer (`ElysiumExporter`)

The Electron `fs` module is embedded as an association list from paths
to file contents; `writeFileSync` replaces in place or appends.  Two
collaborators of the exporter are not part of the source drop and enter
as parameters: the serializer `OpenTimeExporter.export` (a function
`OpenTimeDocument → String`) and the YAML decoder `js-yaml`'s `load`
(a function `String → Option OpenTimeDocument`, `none` standing for a
thrown parse error or for a parse without a usable `items` array — the
two cases `exportSingleFile` treats identically). -/

def FS := List (String × String)

def lookupFS (fs : FS) (p : String) : Option String :=
  (List.find? (fun e => e.1 = p) fs).map (·.2)

def setFS (fs : FS) (p v : String) : FS :=
  match fs with
  | [] => [(p, v)]
  | e :: es => if e.1 = p then (p, v) :: es else e :: setFS es p v

theorem lookupFS_setFS (fs : FS) (p v : String) :
    lookupFS (setFS fs p v) p = some v := by
  induction fs with
  | nil => simp [setFS, lookupFS, List.find?_cons]
  | cons e es ih =>
    by_cases h : e.1 = p
    · simp [setFS, h, lookupFS, List.find?_cons]
    · simp only [setFS, if_neg h]
      rw [lookupFS] at ih ⊢
      rw [List.find?_cons, decide_eq_false h]
      exact ih

/-- The trailing-slash normalization `path.replace(/\x2f$/, '')` of the
destination folder (a single trailing slash is removed). -/
def stripTrailingSlash (s : String) : String :=
  match s.data.getLast? with
  | some '/' => ⟨s.data.dropLast⟩
  | _ => s

/-- `ElysiumExporter.exportSingleFile`: read the existing file if any,
decode it (a decode failure is caught and logged, leaving the prior item
list empty), merge by id, serialize, overwrite, report success.  The
model assumes the filesystem calls themselves succeed; the `catch` arm
for filesystem faults returns `false` and is outside every claim. -/
def exportSingleFile (ser : OpenTimeDocument → String)
    (decode : String → Option OpenTimeDocument)
    (pluginVersion : String) (items : List OpenTimeItem)
    (elysiumFolderPath timezone filename now : String) (fs : FS) : Bool × FS :=
  let normalizedPath := stripTrailingSlash elysiumFolderPath
  let fullPath := normalizedPath ++ "/" ++ filename ++ ".ot"
  let existingItems : List OpenTimeItem :=
    match lookupFS fs fullPath with
    | none => []
    | some content =>
      match decode content with
      | none => []
      | some doc => doc.items
  let doc : OpenTimeDocument :=
    { opentime_version := some "0.2"
      default_timezone := some timezone
      generated_by := some ("Obsidian OpenTime Export " ++ pluginVersion)
      created_at := some now
      items := mergeItems existingItems items }
  (true, setFS fs fullPath (ser doc))

/-- `ElysiumExporter.exportDocument`: validate the folder path, then
serialize and write — the document is written as serialized, with no
read of, or merge with, whatever file may already be at the path. -/
def exportDocument (ser : OpenTimeDocument → String)
    (document : OpenTimeDocument) (elysiumFolderPath filename : String)
    (fs : FS) : Bool × FS :=
  if elysiumFolderPath = "" then (false, fs)
  else
    let normalizedPath := stripTrailingSlash elysiumFolderPath
    let fullPath := normalizedPath ++ "/" ++ filename
    (true, setFS fs fullPath (ser document))

/-- `ElysiumExporter.exportItem`: wrap the single item in a fresh
document and hand it to `exportDocument` under the sanitized per-item
filename.  (`item.title`/`item.type` are required by the TypeScript
types; a missing title is defaulted to `""` here.) -/
def exportItem (ser : OpenTimeDocument → String) (pluginVersion : String)
    (item : OpenTimeItem) (elysiumFolderPath timezone now : String)
    (fs : FS) : Bool × FS :=
  let doc : OpenTimeDocument :=
    { opentime_version := some "0.2"
      default_timezone := some timezone
      generated_by := some ("Obsidian OpenTime Export " ++ pluginVersion)
      created_at := some now
      items := [item] }
  exportDocument ser doc elysiumFolderPath
    (sanitizedFilename (item.title.getD "") item.type) fs

/-- C7: when the existing destination file of a single-file export fails
to decode, the failure is recovered locally — the prior item list is
treated as empty, the export proceeds, overwrites the file with exactly
the freshly parsed items, and reports success. -/
theorem claim_C7 (ser : OpenTimeDocument → String)
    (decode : String → Option OpenTimeDocument)
    (ver : String) (items : List OpenTimeItem)
    (folder tz fn now content : String) (fs : FS)
    (hexists : lookupFS fs (stripTrailingSlash folder ++ "/" ++ fn ++ ".ot") =
      some content)
    (hbad : decode content = none)
    (hids : (itemIds items).Nodup) :
    exportSingleFile ser decode ver items folder tz fn now fs =
      (true, setFS fs (stripTrailingSlash folder ++ "/" ++ fn ++ ".ot")
        (ser { opentime_version := some "0.2"
               default_timezone := some tz
               generated_by := some ("Obsidian OpenTime Export " ++ ver)
               created_at := some now
               items := items })) := by
  rw [exportSingleFile]
  simp only [hexists, hbad]
  rw [mergeItems_nil items hids]

theorem claim_C7_witness :
    exportSingleFile (fun d => toString d.items.length) (fun _ => none) "1.0.0"
        [itB2] "f" "UTC" "elysium-schedule" "T0" [("f/elysium-schedule.ot", "nonsense")] =
      (true, [("f/elysium-schedule.ot",
        toString ({ opentime_version := some "0.2"
                    default_timezone := some "UTC"
                    generated_by := some ("Obsidian OpenTime Export " ++ "1.0.0")
                    created_at := some "T0"
                    items := [itB2] } : OpenTimeDocument).items.length)]) := by
  rw [claim_C7 (fun d => toString d.items.length) (fun _ => none) "1.0.0" [itB2]
    "f" "UTC" "elysium-schedule" "T0" "nonsense" [("f/elysium-schedule.ot", "nonsense")]
    (by decide) rfl (by decide)]
  rfl

/-- C10: per-item export always writes, at the derived filename, the
serialization of a document whose item list is exactly the single given
item — whatever file was previously at that path is fully replaced,
never merged, so externally added content of that file does not survive
a re-export; the call reports success. -/
theorem claim_C10 (ser : OpenTimeDocument → String) (ver : String)
    (item : OpenTimeItem) (folder tz now : String) (fs : FS)
    (hfolder : folder ≠ "") :
    (exportItem ser ver item folder tz now fs).1 = true ∧
    lookupFS (exportItem ser ver item folder tz now fs).2
        (stripTrailingSlash folder ++ "/" ++
          sanitizedFilename (item.title.getD "") item.type) =
      some (ser { opentime_version := some "0.2"
                  default_timezone := some tz
                  generated_by := some ("Obsidian OpenTime Export " ++ ver)
                  created_at := some now
                  items := [item] }) := by
  rw [exportItem, exportDocument]
  simp only [if_neg hfolder]
  exact ⟨trivial, lookupFS_setFS fs _ _⟩

theorem claim_C10_witness :
    (exportItem (fun d => toString d.items.length) "1.0.0" itB2 "f/" "UTC" "T0"
        [("f/elysium-event-b2.ot", "externally written linking info")]).1 = true ∧
    lookupFS (exportItem (fun d => toString d.items.length) "1.0.0" itB2 "f/" "UTC" "T0"
        [("f/elysium-event-b2.ot", "externally written linking info")]).2
        ("f" ++ "/" ++ sanitizedFilename "B2" .event) =
      some (toString ({ opentime_version := some "0.2"
                        default_timezone := some "UTC"
                        generated_by := some ("Obsidian OpenTime Export " ++ "1.0.0")
                        created_at := some "T0"
                        items := [itB2] } : OpenTimeDocument).items.length) := by
  have h := claim_C10 (fun d => toString d.items.length) "1.0.0" itB2 "f/" "UTC" "T0"
    [("f/elysium-event-b2.ot", "externally written linking info")] (by decide)
  exact ⟨h.1, h.2⟩

/-! ## Shared parser utilities -/

def isDigit (c : Char) : Bool := '0' ≤ c && c ≤ '9'

/-- Split a character list at every occurrence of `sep` (JavaScript
`String.prototype.split` with a one-character separator: `n` separators
yield `n + 1` pieces, so the result is never empty). -/
def splitOnChar (sep : Char) : List Char → List (List Char)
  | [] => [[]]
  | c :: cs =>
    let r := splitOnChar sep cs
    if c = sep then [] :: r else (c :: r.headD []) :: r.tail

/-- JavaScript `content.split('\n')`, lifted to `String`. -/
def splitNl (s : String) : List String :=
  (splitOnChar '\n' s.data).map (fun l => ⟨l⟩)

/-- The numeric value `Number(s)` of an all-digit string (the only
inputs the parsers feed it). -/
def parseNatDigits (cs : List Char) : Nat :=
  cs.foldl (fun n c => n * 10 + (c.toNat - 48)) 0

/-- JavaScript `String.prototype.padStart(2, '0')`. -/
def padStart2 (cs : List Char) : List Char :=
  if cs.length ≥ 2 then cs else List.replicate (2 - cs.length) '0' ++ cs

/-- Modelled from the spec: the Identity Generator of `types/opentime.ts`
(`generateId`), whose source file is absent from the drop.  Spec §4.1:
lower-case the title, collapse all non-alphanumeric runs to a single
hyphen, strip leading/trailing hyphens, truncate to 40 characters, then
append an underscore and a base-36-encoded time-derived suffix; the
caller-supplied namespace goes in front.  The current time enters as the
explicit argument `ts`. -/
def generateId (ns title : String) (ts : Nat) : String :=
  ns ++ "_" ++
  ⟨(trimHyphens (collapseRuns (fun c => !c.isAlphanum)
      (title.data.map Char.toLower))).take 40⟩ ++
  "_" ++ ⟨Nat.toDigits 36 ts⟩

/-! ## The Checkbox-Task Parser (`parsers/TasksParser.ts`) -/

/-- The checkbox pattern `TASK_PATTERN`, anchored:
leading whitespace, a dash, optional whitespace, a bracketed checkbox
character (space or x/X), optional whitespace, then the (non-empty)
content.  When everything after the bracket is whitespace the regex
backtracks one character so that `(.+)` still matches. -/
def taskPatternMatch (line : List Char) : Option (Char × List Char) :=
  match line.dropWhile isJsSpace with
  | '-' :: rest2 =>
    match rest2.dropWhile isJsSpace with
    | '[' :: cb :: ']' :: rest4 =>
      if cb = ' ' || cb = 'x' || cb = 'X' then
        let ws := rest4.takeWhile isJsSpace
        let content := rest4.dropWhile isJsSpace
        if content ≠ [] then some (cb, content)
        else if ws.length ≥ 1 then some (cb, rest4.drop (ws.length - 1))
        else none
      else none
    | _ => none
  | _ => none

/-- Match `\d{4}-\d{2}-\d{2}` at the head of the list, returning the
matched characters and the remainder. -/
def dateAt (cs : List Char) : Option (List Char × List Char) :=
  match cs with
  | a :: b :: c :: d :: '-' :: e :: f :: '-' :: g :: h :: rest =>
    if isDigit a && isDigit b && isDigit c && isDigit d &&
       isDigit e && isDigit f && isDigit g && isDigit h then
      some ([a, b, c, d, '-', e, f, '-', g, h], rest)
    else none
  | _ => none

/-- Leftmost match of an `EMOJI_PATTERNS` date pattern `{emoji}\s*(date)`:
returns (text before the match, the matched substring, the captured
date, the text after).  The `\s*` cannot backtrack usefully because a
date starts with a digit. -/
def emojiDateSearch (emoji : Char) : List Char →
    Option (List Char × List Char × List Char × List Char)
  | [] => none
  | c :: cs =>
    if c = emoji then
      match dateAt (cs.dropWhile isJsSpace) with
      | some (date, rest) => some ([], c :: (cs.takeWhile isJsSpace ++ date), date, rest)
      | none =>
        match emojiDateSearch emoji cs with
        | some (pre, m, cap, post) => some (c :: pre, m, cap, post)
        | none => none
    else
      match emojiDateSearch emoji cs with
      | some (pre, m, cap, post) => some (c :: pre, m, cap, post)
      | none => none

/-- JavaScript `str.replace(pattern, '')` for a non-global emoji-date
pattern: remove the first match, if any. -/
def removeFirstEmojiDate (emoji : Char) (cs : List Char) : List Char :=
  match emojiDateSearch emoji cs with
  | some (pre, _, _, post) => pre ++ post
  | none => cs

/-- Leftmost match of the recurrence pattern (repeat emoji, optional
whitespace, a maximal non-empty run of non-whitespace), removed. -/
def removeFirstRecur : List Char → List Char
  | [] => []
  | c :: cs =>
    if c = '🔁' then
      let tok := (cs.dropWhile isJsSpace).takeWhile (fun c => !isJsSpace c)
      if tok ≠ [] then (cs.dropWhile isJsSpace).drop tok.length
      else c :: removeFirstRecur cs
    else c :: removeFirstRecur cs

/-- Remove the first character belonging to the given class (a
non-global character-class replace). -/
def removeFirstOf (chs : List Char) : List Char → List Char
  | [] => []
  | c :: cs => if chs.contains c then cs else c :: removeFirstOf chs cs

/-- A character of the hash-tag class `[a-zA-Z0-9_-]`. -/
def isTagChar (c : Char) : Bool := c.isAlphanum || c = '_' || c = '-'

/-- Collect the capture of every match of the global pattern
`#([a-zA-Z0-9_-]+)`, in order of appearance.  The accumulator is `none`
while scanning outside a candidate tag and `some run` after a `#` whose
tag characters read so far are `run`; a candidate with an empty run is
the regex failing at that `#` and moving on. -/
def collectTagsAux : Option (List Char) → List Char → List String
  | none, [] => []
  | some run, [] => if run = [] then [] else [⟨run⟩]
  | none, c :: cs =>
    if c = '#' then collectTagsAux (some []) cs else collectTagsAux none cs
  | some run, c :: cs =>
    if isTagChar c then collectTagsAux (some (run ++ [c])) cs
    else
      let rest := if c = '#' then collectTagsAux (some []) cs
                  else collectTagsAux none cs
      if run = [] then rest else (⟨run⟩ : String) :: rest

def collectTags (cs : List Char) : List String :=
  collectTagsAux none cs

/-- Remove every match of the global pattern `#[a-zA-Z0-9_-]+` (same
scan as `collectTagsAux`, emitting the unmatched characters). -/
def removeTagsAux : Option (List Char) → List Char → List Char
  | none, [] => []
  | some run, [] => if run = [] then ['#'] else []
  | none, c :: cs =>
    if c = '#' then removeTagsAux (some []) cs else c :: removeTagsAux none cs
  | some run, c :: cs =>
    if isTagChar c then removeTagsAux (some (run ++ [c])) cs
    else
      let rest := if c = '#' then removeTagsAux (some []) cs
                  else c :: removeTagsAux none cs
      if run = [] then '#' :: rest else rest

def removeTags (cs : List Char) : List Char :=
  removeTagsAux none cs

structure ParsedTask where
  title : String
  completed : Bool
  dueDate : Option String := none
  scheduledDate : Option String := none
  startDate : Option String := none
  doneDate : Option String := none
  priority : Option Int := none
  tags : Option (List String) := none
  lineNumber : Nat
  originalText : String
  deriving Repr, DecidableEq

/-- `TasksParser.parseLine`. -/
def tasksParseLine (line : String) (lineNumber : Nat) : Option ParsedTask :=
  match taskPatternMatch line.data with
  | none => none
  | some (cb, content) =>
    let completed := cb = 'x' || cb = 'X'
    let tags := collectTags content
    let t1 := removeFirstEmojiDate '📅' content
    let t2 := removeFirstEmojiDate '⏳' t1
    let t3 := removeFirstEmojiDate '🛫' t2
    let t4 := removeFirstEmojiDate '✅' t3
    let t5 := removeFirstEmojiDate '➕' t4
    let t6 := removeFirstRecur t5
    let t7 := removeFirstOf ['⏫', '🔺'] t6
    let t8 := removeFirstOf ['🔼'] t7
    let t9 := removeFirstOf ['🔽', '⏬'] t8
    let t10 := removeTags t9
    some
      { title := ⟨jsTrim t10⟩
        completed := completed
        dueDate := (emojiDateSearch '📅' content).map (fun r => ⟨r.2.2.1⟩)
        scheduledDate := (emojiDateSearch '⏳' content).map (fun r => ⟨r.2.2.1⟩)
        startDate := (emojiDateSearch '🛫' content).map (fun r => ⟨r.2.2.1⟩)
        doneDate := (emojiDateSearch '✅' content).map (fun r => ⟨r.2.2.1⟩)
        priority :=
          if content.any (fun c => c = '⏫' || c = '🔺') then some 9
          else if content.contains '🔼' then some 5
          else if content.any (fun c => c = '🔽' || c = '⏬') then some 1
          else none
        tags := if tags = [] then none else some tags
        lineNumber := lineNumber
        originalText := line }

/-- `TasksParser.toOpenTimeTask`. -/
def toOpenTimeTask (idPre : String) (p : ParsedTask) (filePath : String)
    (ts : Nat) : OpenTimeItem :=
  { type := .task
    id := some (generateId (idPre ++ "_task") p.title ts)
    title := some p.title
    status := some (if p.completed then "done" else "todo")
    due := p.dueDate
    scheduled_start :=
      match p.scheduledDate with
      | some d => if d = "" then none else some (d ++ "T09:00:00")
      | none => none
    priority := p.priority
    tags := p.tags
    x_obsidian := some
      { source_file := filePath
        line_number := some lineNumber
        original_text := some p.originalText } }
where lineNumber : Int := p.lineNumber

/-- `TasksParser.parseFile`: one task per matching line, line numbers
1-based. -/
def tasksParseFile (idPre content filePath : String) (ts : Nat) :
    List OpenTimeItem :=
  (splitNl content).enum.filterMap fun pair =>
    (tasksParseLine pair.2 (pair.1 + 1)).map fun p =>
      toOpenTimeTask idPre p filePath ts

/-- C4: the Checkbox-Task Parser on the single line
`- [ ] Buy groceries 📅 2025-01-15` yields exactly one task item, with
status `todo`, due `2025-01-15`, title exactly `Buy groceries` (no
trailing emoji or whitespace), and no scheduled start, priority or
tags. -/
theorem claim_C4 (filePath : String) (ts : Nat) :
    tasksParseFile "obs" "- [ ] Buy groceries 📅 2025-01-15" filePath ts =
      [{ type := .task
         id := some (generateId "obs_task" "Buy groceries" ts)
         title := some "Buy groceries"
         status := some "todo"
         due := some "2025-01-15"
         x_obsidian := some
           { source_file := filePath
             line_number := some 1
             original_text := some "- [ ] Buy groceries 📅 2025-01-15" } }] := rfl

/-! ## The Time-Block Parser (`parsers/DayPlannerParser.ts`) -/

/-- Match `\d{1,2}:\d{2}` at the head: the two-digit-hour reading first
(the quantifier is greedy), else the one-digit-hour reading.  When the
first shape fits structurally but its digit test fails, the one-digit
reading would need the second character to be both a digit and `':'`,
so returning `none` directly agrees with the regex's backtracking. -/
def timeAt : List Char → Option (List Char × List Char × List Char)
  | a :: b :: ':' :: c :: d :: rest =>
    if isDigit a && isDigit b && isDigit c && isDigit d then
      some ([a, b], [c, d], rest)
    else none
  | a :: ':' :: c :: d :: rest =>
    if isDigit a && isDigit c && isDigit d then some ([a], [c, d], rest)
    else none
  | _ => none

/-- The common `^(\s*)-?\s*` lead-in of both time-block patterns. -/
def dashLead (line : List Char) : List Char :=
  match line.dropWhile isJsSpace with
  | '-' :: rest => rest.dropWhile isJsSpace
  | r1 => r1

/-- The `\s+(.+)$` tail of both patterns: at least one whitespace
character, then non-empty content; when everything after the time is
whitespace the regex backtracks one character into `(.+)`. -/
def afterTimeContent (rest : List Char) : Option (List Char) :=
  let ws := rest.takeWhile isJsSpace
  let content := rest.dropWhile isJsSpace
  if ws.length = 0 then none
  else if content ≠ [] then some content
  else if ws.length ≥ 2 then some (rest.drop (ws.length - 1))
  else none

/-- `SINGLE_TIME_PATTERN`: `^(\s*)-?\s*(\d{1,2}:\d{2})\s+(.+)$`, returning
the hour digits, the minute digits and the raw content. -/
def singleTimeMatch (line : List Char) :
    Option ((List Char × List Char) × List Char) :=
  match timeAt (dashLead line) with
  | some (h, m, rest) => (afterTimeContent rest).map (fun content => ((h, m), content))
  | none => none

/-- `TIME_RANGE_PATTERN`:
`^(\s*)-?\s*(\d{1,2}:\d{2})\s*-\s*(\d{1,2}:\d{2})\s+(.+)$`. -/
def rangeMatch (line : List Char) :
    Option ((List Char × List Char) × (List Char × List Char) × List Char) :=
  match timeAt (dashLead line) with
  | some (h1, m1, rest) =>
    match rest.dropWhile isJsSpace with
    | '-' :: rest3 =>
      match timeAt (rest3.dropWhile isJsSpace) with
      | some (h2, m2, rest5) =>
        (afterTimeContent rest5).map (fun content => ((h1, m1), (h2, m2), content))
      | none => none
    | _ => none
  | none => none

/-- `DayPlannerParser.normalizeTime`: split on `':'`, zero-pad the hours
to two characters, keep the minutes.  (A time with no `':'` cannot come
out of the patterns; its JavaScript result would interpolate an
undefined minutes part.) -/
def normalizeTime (t : List Char) : List Char :=
  match splitOnChar ':' t with
  | h :: m :: _ => padStart2 h ++ ':' :: m
  | [h] => padStart2 h ++ ':' :: "undefined".data
  | [] => []

/-- `DayPlannerParser.addMinutes`: minute arithmetic with the hours
reduced modulo 24 (`Math.floor(totalMinutes / 60) % 24`), zero-padded
back to `HH:MM`. -/
def addMinutes (time : List Char) (minutes : Nat) : List Char :=
  match splitOnChar ':' time with
  | h :: m :: _ =>
    let total := parseNatDigits h * 60 + parseNatDigits m + minutes
    padStart2 (Nat.repr (total / 60 % 24)).data ++ ':' :: padStart2 (Nat.repr (total % 60)).data
  | _ => time

structure ParsedTimeBlock where
  title : String
  startTime : String
  endTime : Option String := none
  lineNumber : Nat
  originalText : String
  deriving Repr, DecidableEq

/-- `DayPlannerParser.parseLine`: the range pattern first, then the
single-time pattern. -/
def dpParseLine (line : String) (lineNumber : Nat) : Option ParsedTimeBlock :=
  match rangeMatch line.data with
  | some r =>
    some { title := ⟨jsTrim r.2.2⟩
           startTime := ⟨normalizeTime (r.1.1 ++ ':' :: r.1.2)⟩
           endTime := some ⟨normalizeTime (r.2.1.1 ++ ':' :: r.2.1.2)⟩
           lineNumber := lineNumber
           originalText := line }
  | none =>
    match singleTimeMatch line.data with
    | some r =>
      some { title := ⟨jsTrim r.2⟩
             startTime := ⟨normalizeTime (r.1.1 ++ ':' :: r.1.2)⟩
             endTime := none
             lineNumber := lineNumber
             originalText := line }
    | none => none

/-- `DayPlannerParser.toOpenTimeEvent`: the end time is the parsed one
when present (and JS-truthy), else start plus the configured default
duration. -/
def toOpenTimeEvent (idPre : String) (defaultDuration : Nat)
    (defaultTimezone : String) (p : ParsedTimeBlock)
    (filePath date : String) (ts : Nat) : OpenTimeItem :=
  let endTime : String :=
    match p.endTime with
    | some e => if e = "" then ⟨addMinutes p.startTime.data defaultDuration⟩ else e
    | none => ⟨addMinutes p.startTime.data defaultDuration⟩
  { type := .event
    id := some (generateId (idPre ++ "_ev") (date ++ "_" ++ p.startTime) ts)
    title := some p.title
    start := some (date ++ "T" ++ p.startTime ++ ":00")
    «end» := some (date ++ "T" ++ endTime ++ ":00")
    timezone := some defaultTimezone
    x_obsidian := some
      { source_file := filePath
        line_number := some (p.lineNumber : Int)
        original_text := some p.originalText } }

/-- Minute-of-day value of an `HH:MM` string. -/
def timeValMinutes (t : String) : Nat :=
  match splitOnChar ':' t.data with
  | h :: m :: _ => parseNatDigits h * 60 + parseNatDigits m
  | _ => 0

/-- Zero-padded `HH:MM` rendering of a minute-of-day value. -/
def fmtHHMM (v : Nat) : String :=
  ⟨padStart2 (Nat.repr (v / 60)).data ++ ':' :: padStart2 (Nat.repr (v % 60)).data⟩

theorem splitOnChar_no_sep (sep : Char) (l : List Char) (h : sep ∉ l) :
    splitOnChar sep l = [l] := by
  induction l with
  | nil => rfl
  | cons c cs ih =>
    simp only [List.mem_cons] at h
    push_neg at h
    have hne : ¬ (c = sep) := fun hc => h.1 hc.symm
    simp [splitOnChar, ih h.2, hne]

theorem splitOnChar_cons (sep c : Char) (cs : List Char) :
    splitOnChar sep (c :: cs) =
      if c = sep then [] :: splitOnChar sep cs
      else (c :: (splitOnChar sep cs).headD []) :: (splitOnChar sep cs).tail := rfl

theorem splitOnChar_append (sep : Char) (l r : List Char) (h : sep ∉ l) :
    splitOnChar sep (l ++ sep :: r) = l :: splitOnChar sep r := by
  induction l with
  | nil => simp [splitOnChar]
  | cons c cs ih =>
    simp only [List.mem_cons] at h
    push_neg at h
    have hne : ¬ (c = sep) := fun hc => h.1 hc.symm
    rw [List.cons_append, splitOnChar_cons, if_neg hne, ih h.2]
    simp

theorem parseNatDigits_padStart2 (h : List Char) :
    parseNatDigits (padStart2 h) = parseNatDigits h := by
  rw [padStart2]
  split
  · rfl
  · rw [parseNatDigits, List.foldl_append]
    have : ∀ k, List.foldl (fun n c => n * 10 + (c.toNat - 48)) 0
        (List.replicate k '0') = 0 := by
      intro k
      induction k with
      | zero => rfl
      | succ k ih => simpa [List.replicate_succ] using ih
    rw [this]
    rfl

theorem not_colon_of_digits {l : List Char} (h : l.all isDigit) : ':' ∉ l := by
  intro hmem
  rw [List.all_eq_true] at h
  have := h ':' hmem
  revert this
  decide

theorem timeAt_shape {cs h m rest : List Char}
    (e : timeAt cs = some (h, m, rest)) : h.all isDigit ∧ m.all isDigit := by
  unfold timeAt at e
  split at e
  · split at e
    · simp only [Option.some.injEq, Prod.mk.injEq] at e
      obtain ⟨eh, em, er⟩ := e
      subst eh; subst em
      rename_i hcond
      simp only [Bool.and_eq_true] at hcond
      simp [List.all_cons, hcond.1.1.1, hcond.1.1.2, hcond.1.2, hcond.2]
    · exact Option.noConfusion e
  · split at e
    · simp only [Option.some.injEq, Prod.mk.injEq] at e
      obtain ⟨eh, em, er⟩ := e
      subst eh; subst em
      rename_i hcond
      simp only [Bool.and_eq_true] at hcond
      simp [List.all_cons, hcond.1.1, hcond.1.2, hcond.2]
    · exact Option.noConfusion e
  · exact Option.noConfusion e

theorem normalizeTime_hm {h m : List Char} (hd : h.all isDigit)
    (md : m.all isDigit) :
    normalizeTime (h ++ ':' :: m) = padStart2 h ++ ':' :: m := by
  rw [normalizeTime, splitOnChar_append ':' h m (not_colon_of_digits hd),
    splitOnChar_no_sep ':' m (not_colon_of_digits md)]

theorem colon_not_mem_padStart2 {h : List Char} (hd : h.all isDigit) :
    ':' ∉ padStart2 h := by
  rw [padStart2]
  split
  · exact not_colon_of_digits hd
  · intro hmem
    rcases List.mem_append.mp hmem with hmem | hmem
    · have := List.eq_of_mem_replicate hmem
      exact absurd this (by decide)
    · exact not_colon_of_digits hd hmem

theorem addMinutes_of_split {t h m : List Char}
    (hsplit : splitOnChar ':' t = [h, m]) (d : Nat) :
    addMinutes t d =
      padStart2 (Nat.repr ((parseNatDigits h * 60 + parseNatDigits m + d) / 60 % 24)).data
        ++ ':' :: padStart2 (Nat.repr ((parseNatDigits h * 60 + parseNatDigits m + d) % 60)).data := by
  rw [addMinutes, hsplit]

theorem addMinutes_eq {h m : List Char} (hd : h.all isDigit)
    (md : m.all isDigit) (d : Nat) :
    addMinutes (padStart2 h ++ ':' :: m) d =
      (fmtHHMM ((parseNatDigits h * 60 + parseNatDigits m + d) % 1440)).data := by
  have hsplit : splitOnChar ':' (padStart2 h ++ ':' :: m) = [padStart2 h, m] := by
    rw [splitOnChar_append ':' (padStart2 h) m (colon_not_mem_padStart2 hd),
      splitOnChar_no_sep ':' m (not_colon_of_digits md)]
  rw [addMinutes_of_split hsplit d, parseNatDigits_padStart2]
  have hdata : (fmtHHMM ((parseNatDigits h * 60 + parseNatDigits m + d) % 1440)).data =
      padStart2 (Nat.repr ((parseNatDigits h * 60 + parseNatDigits m + d) % 1440 / 60)).data
        ++ ':' :: padStart2 (Nat.repr ((parseNatDigits h * 60 + parseNatDigits m + d) % 1440 % 60)).data := rfl
  rw [hdata]
  have e24 : (1440 : Nat) = 60 * 24 := by norm_num
  have e1 : (parseNatDigits h * 60 + parseNatDigits m + d) % 1440 / 60 =
      (parseNatDigits h * 60 + parseNatDigits m + d) / 60 % 24 := by
    rw [e24, Nat.mod_mul_right_div_self]
  have e2 : (parseNatDigits h * 60 + parseNatDigits m + d) % 1440 % 60 =
      (parseNatDigits h * 60 + parseNatDigits m + d) % 60 := by
    rw [e24, Nat.mod_mul_right_mod]
  rw [e1, e2]

theorem timeValMinutes_hm {h m : List Char} (hd : h.all isDigit)
    (md : m.all isDigit) :
    timeValMinutes ⟨padStart2 h ++ ':' :: m⟩ =
      parseNatDigits h * 60 + parseNatDigits m := by
  have hsplit : splitOnChar ':' (padStart2 h ++ ':' :: m) = [padStart2 h, m] := by
    rw [splitOnChar_append ':' (padStart2 h) m (colon_not_mem_padStart2 hd),
      splitOnChar_no_sep ':' m (not_colon_of_digits md)]
  have : timeValMinutes ⟨padStart2 h ++ ':' :: m⟩ =
      match splitOnChar ':' (padStart2 h ++ ':' :: m) with
      | h :: m :: _ => parseNatDigits h * 60 + parseNatDigits m
      | _ => 0 := rfl
  rw [this, hsplit]
  show parseNatDigits (padStart2 h) * 60 + parseNatDigits m =
    parseNatDigits h * 60 + parseNatDigits m
  rw [parseNatDigits_padStart2]

theorem singleTimeMatch_digits {line : List Char}
    {r : (List Char × List Char) × List Char}
    (hs : singleTimeMatch line = some r) :
    r.1.1.all isDigit ∧ r.1.2.all isDigit := by
  rw [singleTimeMatch] at hs
  cases ht : timeAt (dashLead line) with
  | none =>
    rw [ht] at hs
    exact Option.noConfusion hs
  | some t =>
    obtain ⟨h, m, rest⟩ := t
    rw [ht] at hs
    have hsh := timeAt_shape ht
    have hs' : (afterTimeContent rest).map (fun content => ((h, m), content)) = some r := hs
    cases hc : afterTimeContent rest with
    | none =>
      rw [hc] at hs'
      exact Option.noConfusion hs'
    | some content =>
      rw [hc] at hs'
      simp only [Option.map_some', Option.some.injEq] at hs'
      rw [← hs']
      exact hsh

theorem toOpenTimeEvent_end_none (idPre : String) (d : Nat) (tz : String)
    (p : ParsedTimeBlock) (filePath date : String) (ts : Nat)
    (h : p.endTime = none) :
    (toOpenTimeEvent idPre d tz p filePath date ts).«end» =
      some (date ++ "T" ++ (⟨addMinutes p.startTime.data d⟩ : String) ++ ":00") := by
  rw [toOpenTimeEvent, h]

/-- C5: for every line matched by the single-time pattern (no explicit
end time), with resolved date and configured default duration `d`, the
produced event starts at the normalized time on that date and ends,
still on that date, at the start's minute-of-day value plus `d` reduced
modulo 24 hours, rendered as zero-padded `HH:MM` — no day rollover. -/
theorem claim_C5 (line : String) (n : Nat) (pb : ParsedTimeBlock) (d : Nat)
    (idPre tz filePath date : String) (ts : Nat)
    (h1 : dpParseLine line n = some pb) (h2 : pb.endTime = none) :
    (toOpenTimeEvent idPre d tz pb filePath date ts).start =
      some (date ++ "T" ++ pb.startTime ++ ":00") ∧
    (toOpenTimeEvent idPre d tz pb filePath date ts).«end» =
      some (date ++ "T" ++ fmtHHMM ((timeValMinutes pb.startTime + d) % 1440) ++ ":00") := by
  refine ⟨rfl, ?_⟩
  rw [dpParseLine] at h1
  cases hr : rangeMatch line.data with
  | some r =>
    rw [hr] at h1
    simp only [Option.some.injEq] at h1
    rw [← h1] at h2
    simp at h2
  | none =>
    rw [hr] at h1
    cases hs : singleTimeMatch line.data with
    | none => rw [hs] at h1; exact absurd h1 (by simp)
    | some r =>
      rw [hs] at h1
      simp only [Option.some.injEq] at h1
      obtain ⟨hd, md⟩ := singleTimeMatch_digits hs
      have e : pb =
          { title := ⟨jsTrim r.2⟩
            startTime := ⟨normalizeTime (r.1.1 ++ ':' :: r.1.2)⟩
            endTime := none
            lineNumber := n
            originalText := line } := h1.symm
      subst e
      rw [toOpenTimeEvent_end_none _ _ _ _ _ _ _ rfl]
      have hn := normalizeTime_hm hd md
      show some (date ++ "T" ++
          (⟨addMinutes (normalizeTime (r.1.1 ++ ':' :: r.1.2)) d⟩ : String) ++ ":00") = _
      rw [hn, addMinutes_eq hd md d, timeValMinutes_hm hd md]

def dpExample : ParsedTimeBlock :=
  { title := "Standup"
    startTime := "09:00"
    endTime := none
    lineNumber := 1
    originalText := "09:00 Standup" }

theorem claim_C5_witness :
    dpParseLine "09:00 Standup" 1 = some dpExample ∧
    (toOpenTimeEvent "obs" 30 "UTC" dpExample "day.md" "2025-01-15" 0).start =
      some "2025-01-15T09:00:00" ∧
    (toOpenTimeEvent "obs" 30 "UTC" dpExample "day.md" "2025-01-15" 0).«end» =
      some "2025-01-15T09:30:00" := by
  have h := claim_C5 "09:00 Standup" 1 dpExample 30 "obs" "UTC" "day.md"
    "2025-01-15" 0 (by decide) rfl
  refine ⟨by decide, ?_, ?_⟩
  · rw [h.1]; decide
  · rw [h.2]; decide

/-! ## The Frontmatter Parser (`parsers/FrontmatterParser.ts`)

The host platform's YAML front-matter decoding (`parseYaml`, an external
collaborator) delivers a parsed key-value record; the embedding starts
from that record (`ParsedFrontmatter`, as in the TypeScript interface of
the same name).  String-typed fields that the code tests with plain
truthiness are `Option String` (absent or empty both falsy); `progress`
is tested with `!== undefined` in the source and is an `Option Int`. -/

structure ParsedFrontmatter where
  type : Option String := none
  title : Option String := none
  tags : Option (List String) := none
  notes : Option String := none
  status : Option String := none
  due : Option String := none
  scheduled : Option String := none
  priority : Option Int := none
  date : Option String := none
  start : Option String := none
  «end» : Option String := none
  startTime : Option String := none
  endTime : Option String := none
  allDay : Option Bool := none
  location : Option String := none
  target_date : Option String := none
  progress : Option Int := none
  frequency : Option String := none
  deriving Repr, DecidableEq

def jsToLowerStr (s : String) : String := ⟨s.data.map Char.toLower⟩

/-- `FrontmatterParser.determineType`. -/
def determineType (fm : ParsedFrontmatter) : Option String :=
  if jsTruthy fm.type then some (jsToLowerStr (fm.type.getD ""))
  else if jsTruthy fm.due || jsTruthy fm.status then some "task"
  else if jsTruthy fm.start && jsTruthy fm.«end» then some "event"
  else if jsTruthy fm.date && (jsTruthy fm.startTime || jsTruthy fm.endTime) then
    some "event"
  else if jsTruthy fm.target_date || fm.progress.isSome then some "goal"
  else if jsTruthy fm.frequency then some "habit"
  else none

/-- The claim's resolution order for a block with no explicit type,
"present" read as the source's plain-truthiness test (a set but empty
string field is not "present"), "progress defined" as the source's
explicit undefined-check. -/
def claimResolveType (fm : ParsedFrontmatter) : Option String :=
  if jsTruthy fm.due || jsTruthy fm.status then some "task"
  else if jsTruthy fm.start && jsTruthy fm.«end» then some "event"
  else if jsTruthy fm.date && (jsTruthy fm.startTime || jsTruthy fm.endTime) then
    some "event"
  else if jsTruthy fm.target_date || fm.progress.isSome then some "goal"
  else if jsTruthy fm.frequency then some "habit"
  else none

/-- The `statusMap` synonym table of `FrontmatterParser.toTask`. -/
def statusMapLookup (s : String) : Option String :=
  if s = "todo" then some "todo"
  else if s = "in_progress" || s = "in-progress" || s = "inprogress" then
    some "in_progress"
  else if s = "done" || s = "complete" || s = "completed" then some "done"
  else if s = "cancelled" || s = "canceled" then some "cancelled"
  else none

/-- `FrontmatterParser.toTask`. -/
def fmToTask (idPre : String) (fm : ParsedFrontmatter) (title filePath : String)
    (ts : Nat) : OpenTimeItem :=
  { type := .task
    id := some (generateId (idPre ++ "_task") title ts)
    title := some title
    status := some ((statusMapLookup ((fm.status.map jsToLowerStr).getD "")).getD "todo")
    due := fm.due
    scheduled_start := fm.scheduled
    priority := fm.priority
    tags := fm.tags
    notes := fm.notes
    x_obsidian := some { source_file := filePath } }

/-- `FrontmatterParser.toEvent` (the final fallback uses the current
instant, passed in as `now`). -/
def fmToEvent (idPre : String) (fm : ParsedFrontmatter) (title filePath : String)
    (ts : Nat) (tz now : String) : OpenTimeItem :=
  let startEnd : String × String :=
    if jsTruthy fm.start && jsTruthy fm.«end» then (fm.start.getD "", fm.«end».getD "")
    else if jsTruthy fm.date then
      let st := jsOr fm.startTime "09:00"
      let en := jsOr fm.endTime "10:00"
      (fm.date.getD "" ++ "T" ++ st ++ ":00", fm.date.getD "" ++ "T" ++ en ++ ":00")
    else (now, now)
  { type := .event
    id := some (generateId (idPre ++ "_ev") title ts)
    title := some title
    start := some startEnd.1
    «end» := some startEnd.2
    all_day := fm.allDay
    location := fm.location
    timezone := some tz
    tags := fm.tags
    notes := fm.notes
    x_obsidian := some { source_file := filePath } }

/-- `FrontmatterParser.toGoal`. -/
def fmToGoal (idPre : String) (fm : ParsedFrontmatter) (title filePath : String)
    (ts : Nat) : OpenTimeItem :=
  { type := .goal
    kind := some "goal"
    id := some (generateId (idPre ++ "_goal") title ts)
    title := some title
    target_date := fm.target_date
    progress := fm.progress
    tags := fm.tags
    notes := fm.notes
    x_obsidian := some { source_file := filePath } }

/-- The `freqMap` of `FrontmatterParser.toHabit`. -/
def freqMapLookup (s : String) : Option String :=
  if s = "daily" then some "daily"
  else if s = "weekly" then some "weekly"
  else if s = "custom" then some "custom"
  else none

/-- `FrontmatterParser.toHabit`. -/
def fmToHabit (idPre : String) (fm : ParsedFrontmatter) (title filePath : String)
    (ts : Nat) : OpenTimeItem :=
  { type := .habit
    id := some (generateId (idPre ++ "_habit") title ts)
    title := some title
    pattern :=
      match fm.frequency with
      | some f =>
        if f = "" then none
        else some { freq := some ((freqMapLookup (jsToLowerStr f)).getD "daily") }
      | none => none
    tags := fm.tags
    notes := fm.notes
    x_obsidian := some { source_file := filePath } }

/-- `FrontmatterParser.parseFile` from the decoded front-matter record
on: type resolution, title fallback to the file's base name, dispatch to
the per-type constructor (unknown explicit types yield nothing). -/
def fmParseItem (idPre : String) (fm : ParsedFrontmatter)
    (fileBasename filePath : String) (ts : Nat) (tz now : String) :
    Option OpenTimeItem :=
  match determineType fm with
  | none => none
  | some t =>
    let title := jsOr fm.title fileBasename
    if t = "task" then some (fmToTask idPre fm title filePath ts)
    else if t = "event" then some (fmToEvent idPre fm title filePath ts tz now)
    else if t = "goal" then some (fmToGoal idPre fm title filePath ts)
    else if t = "habit" then some (fmToHabit idPre fm title filePath ts)
    else none

def fmDueOnly : ParsedFrontmatter := { due := some "2025-01-20" }

/-- C6: with no explicit type field, the Frontmatter Parser resolves the
item type in the claim's fixed order (due/status ⇒ task; start and end ⇒
event; date with a start or end time ⇒ event; target_date or defined
progress ⇒ goal; frequency ⇒ habit; otherwise nothing), and a block
containing only `due: 2025-01-20` yields a task with that due date and
status `todo`. -/
theorem claim_C6 :
    (∀ fm : ParsedFrontmatter, fm.type = none →
      determineType fm = claimResolveType fm) ∧
    (∀ (basename filePath : String) (ts : Nat) (tz now : String),
      fmParseItem "obs" fmDueOnly basename filePath ts tz now =
        some { type := .task
               id := some (generateId "obs_task" basename ts)
               title := some basename
               status := some "todo"
               due := some "2025-01-20"
               x_obsidian := some { source_file := filePath } }) := by
  constructor
  · intro fm htype
    rw [determineType, claimResolveType, htype]
    rfl
  · intro basename filePath ts tz now
    rfl

theorem claim_C6_witness :
    determineType fmDueOnly = claimResolveType fmDueOnly ∧
    claimResolveType fmDueOnly = some "task" ∧
    (fmParseItem "obs" fmDueOnly "Note" "p.md" 0 "UTC" "T0").map (·.due) =
      some (some "2025-01-20") := by
  refine ⟨claim_C6.1 fmDueOnly rfl, by decide, ?_⟩
  rw [claim_C6.2 "Note" "p.md" 0 "UTC" "T0"]
  rfl

/-! ## The document serializer (`ElysiumItemReader.serializeDocument` /
`serializeItem`)

The serializer pushes lines; the embedding groups the pushes of one
field into a *segment* (the field's head line plus its sub-lines), with
`serializeItem` the concatenation of the segments in the source's push
order.  A JavaScript template interpolation of a possibly-`undefined`
string renders as the text `undefined`, which `jsStr`/`jsStrQ` mirror
(`quote` applied to `undefined` coerces to the quote-free string
`"undefined"` inside the regex test and is interpolated unchanged). -/

/-- JavaScript `array.join(', ')`. -/
def joinCommaSp : List String → String
  | [] => ""
  | [x] => x
  | x :: xs => x ++ ", " ++ joinCommaSp xs

inductive YScalar
  | null
  | bool (b : Bool)
  | int (n : Int)
  | float
  | timestamp
  | merge
  | str (s : String)
  deriving Repr, DecidableEq

/-- Trim the YAML inline whitespace (spaces and tabs) around a value. -/
def ywsTrim (cs : List Char) : List Char :=
  dropTrailing (fun c => c = ' ' || c = '\t') (cs.dropWhile (fun c => c = ' ' || c = '\t'))

def containsSub2 (a b : Char) : List Char → Bool
  | [] => false
  | [_] => false
  | x :: y :: rest => (x = a && y = b) || containsSub2 a b (y :: rest)

/-- A plain (unquoted) scalar the line-oriented decoder accepts: no
`": "` or `" #"` (which would change the line's parse), no trailing
`':'`, no leading `"- "`, no newline. -/
def plainAdmissible (cs : List Char) : Bool :=
  !containsSub2 ':' ' ' cs && !containsSub2 ' ' '#' cs &&
  !(cs.getLast? = some ':') && !(cs.contains '\n') &&
  !(match cs with | '-' :: ' ' :: _ => true | _ => false)

def isIntText (cs : List Char) : Bool :=
  match cs with
  | '-' :: rest => rest ≠ [] && rest.all isDigit
  | '+' :: rest => rest ≠ [] && rest.all isDigit
  | _ => cs ≠ [] && cs.all isDigit

def parseIntText (cs : List Char) : Int :=
  match cs with
  | '-' :: rest => -(parseNatDigits rest : Int)
  | '+' :: rest => (parseNatDigits rest : Int)
  | _ => (parseNatDigits cs : Int)

def isHexDigit (c : Char) : Bool :=
  isDigit c || ('a' ≤ c && c ≤ 'f') || ('A' ≤ c && c ≤ 'F')

/-- Base-prefixed integer text of the library's int type: optional sign,
then a hexadecimal, octal or binary literal. -/
def isHexOctText (cs : List Char) : Bool :=
  let body := match cs with
    | '-' :: rest => rest
    | '+' :: rest => rest
    | rest => rest
  match body with
  | '0' :: 'x' :: rest => rest ≠ [] && rest.all isHexDigit
  | '0' :: 'o' :: rest => rest ≠ [] && rest.all (fun c => '0' ≤ c && c ≤ '7')
  | '0' :: 'b' :: rest => rest ≠ [] && rest.all (fun c => c = '0' || c = '1')
  | _ => false

def hexVal (c : Char) : Nat :=
  if isDigit c then c.toNat - 48
  else if 'a' ≤ c && c ≤ 'f' then c.toNat - 87
  else c.toNat - 55

def parseHexOctText (cs : List Char) : Int :=
  let sgn : Int := match cs with
    | '-' :: _ => -1
    | _ => 1
  let body := match cs with
    | '-' :: rest => rest
    | '+' :: rest => rest
    | rest => rest
  sgn * (match body with
  | '0' :: 'x' :: rest => (rest.foldl (fun n c => n * 16 + hexVal c) 0 : Int)
  | '0' :: 'o' :: rest => (rest.foldl (fun n c => n * 8 + (c.toNat - 48)) 0 : Int)
  | '0' :: 'b' :: rest => (rest.foldl (fun n c => n * 2 + (c.toNat - 48)) 0 : Int)
  | _ => 0)

/-- Exponent part `[eE][-+]?\d+` or nothing. -/
def expTail (cs : List Char) : Bool :=
  match cs with
  | [] => true
  | 'e' :: rest | 'E' :: rest =>
    (match rest with
     | '+' :: ds => ds ≠ [] && ds.all isDigit
     | '-' :: ds => ds ≠ [] && ds.all isDigit
     | ds => ds ≠ [] && ds.all isDigit)
  | _ => false

/-- A digit or the underscore the library's float pattern tolerates. -/
def isNumUChar (c : Char) : Bool := isDigit c || c = '_'

/-- Float text of the library's float type: the infinity/NaN words, or
a digit-led (optionally signed) number with optional fraction and
exponent.  Underscore-bearing and otherwise borderline number shapes
are classified as floats — resolving a plain scalar as a non-string is
the conservative side for the stability predicates. -/
def isFloatText (cs : List Char) : Bool :=
  let body := match cs with
    | '-' :: rest => rest
    | '+' :: rest => rest
    | rest => rest
  if body = ".inf".data || body = ".Inf".data || body = ".INF".data ||
     body = ".nan".data || body = ".NaN".data || body = ".NAN".data then true
  else
    match body with
    | '.' :: rest2 =>
      let fp := rest2.takeWhile isNumUChar
      fp ≠ [] && expTail (rest2.drop fp.length)
    | c :: rest2 =>
      isDigit c &&
        (match rest2.dropWhile isNumUChar with
         | '.' :: rest3 => expTail (rest3.dropWhile isNumUChar)
         | r => expTail r)
    | [] => false

/-- Consume one or two digits. -/
def eatDigits12 : List Char → Option (List Char)
  | [] => none
  | c :: rest =>
    if isDigit c then
      match rest with
      | c2 :: rest2 => if isDigit c2 then some rest2 else some rest
      | [] => some []
    else none

/-- The tail of the library's timestamp pattern after the seconds: an
optional fraction, then an optional (space-separated) `Z` or numeric
offset, then end of text. -/
def tsTail (cs : List Char) : Bool :=
  let cs1 := match cs with
    | '.' :: rest => rest.dropWhile isDigit
    | _ => cs
  match cs1 with
  | [] => true
  | _ =>
    match cs1.dropWhile (fun c => c = ' ' || c = '\t') with
    | ['Z'] => true
    | s :: rest =>
      if s = '+' || s = '-' then
        match eatDigits12 rest with
        | some [] => true
        | some (':' :: m1 :: m2 :: rest3) => isDigit m1 && isDigit m2 && rest3 = []
        | _ => false
      else false
    | [] => false

/-- The library's date-only timestamp form `yyyy-mm-dd`. -/
def isDateText (cs : List Char) : Bool :=
  match cs with
  | [y1, y2, y3, y4, '-', m1, m2, '-', d1, d2] =>
    isDigit y1 && isDigit y2 && isDigit y3 && isDigit y4 &&
    isDigit m1 && isDigit m2 && isDigit d1 && isDigit d2
  | _ => false

/-- The library's full timestamp form: date, `T`/`t` or blanks, time,
optional fraction and offset. -/
def isTimestampText (cs : List Char) : Bool :=
  match cs with
  | y1 :: y2 :: y3 :: y4 :: '-' :: rest =>
    isDigit y1 && isDigit y2 && isDigit y3 && isDigit y4 &&
    (match eatDigits12 rest with
     | some ('-' :: rest2) =>
       (match eatDigits12 rest2 with
        | some rest3 =>
          (match (match rest3 with
                  | 'T' :: r => some r
                  | 't' :: r => some r
                  | ' ' :: r => some (r.dropWhile (fun c => c = ' ' || c = '\t'))
                  | '\t' :: r => some (r.dropWhile (fun c => c = ' ' || c = '\t'))
                  | _ => none) with
           | some rest4 =>
             (match eatDigits12 rest4 with
              | some (':' :: mn1 :: mn2 :: ':' :: s1 :: s2 :: rest5) =>
                isDigit mn1 && isDigit mn2 && isDigit s1 && isDigit s2 &&
                tsTail rest5
              | _ => false)
           | none => false)
        | none => false)
     | _ => false)
  | _ => false

/-- Default-schema resolution of a plain scalar: the core types plus
the timestamp and merge resolvers. -/
def resolvePlain (s : String) : YScalar :=
  let cs := s.data
  if s = "" || s = "~" || s = "null" || s = "Null" || s = "NULL" then .null
  else if s = "true" || s = "True" || s = "TRUE" then .bool true
  else if s = "false" || s = "False" || s = "FALSE" then .bool false
  else if isIntText cs then .int (parseIntText cs)
  else if isHexOctText cs then .int (parseHexOctText cs)
  else if isFloatText cs then .float
  else if isDateText cs || isTimestampText cs then .timestamp
  else if cs = ['<', '<'] then .merge
  else .str s

/-- Body of a double-quoted scalar that must end the line: content up to
an unescaped closing quote with nothing after it. -/
def parseQuotedEnd : List Char → Option (List Char)
  | [] => none
  | '"' :: rest => if rest = [] then some [] else none
  | '\\' :: c :: rest =>
    if c = '"' then (parseQuotedEnd rest).map ('"' :: ·)
    else if c = 'n' then (parseQuotedEnd rest).map ('\n' :: ·)
    else if c = '\\' then (parseQuotedEnd rest).map ('\\' :: ·)
    else none
  | '\n' :: _ => none
  | c :: rest => (parseQuotedEnd rest).map (c :: ·)

/-- Parse a whole (already trimmed) value text as one scalar. -/
def parseValueScalar (v : List Char) : Option YScalar :=
  match v with
  | '"' :: rest => (parseQuotedEnd rest).map (fun l => .str ⟨l⟩)
  | _ => if plainAdmissible v then some (resolvePlain ⟨v⟩) else none

/-- Body of a double-quoted scalar inside a flow list: content plus the
text after the closing quote. -/
def parseQuotedPart : List Char → Option (List Char × List Char)
  | [] => none
  | '"' :: rest => some ([], rest)
  | '\\' :: c :: rest =>
    if c = '"' then (parseQuotedPart rest).map (fun r => ('"' :: r.1, r.2))
    else if c = 'n' then (parseQuotedPart rest).map (fun r => ('\n' :: r.1, r.2))
    else if c = '\\' then (parseQuotedPart rest).map (fun r => ('\\' :: r.1, r.2))
    else none
  | '\n' :: _ => none
  | c :: rest => (parseQuotedPart rest).map (fun r => (c :: r.1, r.2))

/-- One element of a flow list: a quoted or plain scalar (the item model
stores lists of strings, so a non-string resolution fails). -/
def flowElem (cs : List Char) : Option (String × List Char) :=
  let cs := cs.dropWhile (· = ' ')
  match cs with
  | '"' :: rest => (parseQuotedPart rest).map (fun r => (⟨r.1⟩, r.2.dropWhile (· = ' ')))
  | _ =>
    let raw := cs.takeWhile (fun c => c ≠ ',' && c ≠ ']')
    let trimmed := dropTrailing (· = ' ') raw
    if plainAdmissible trimmed then
      match resolvePlain ⟨trimmed⟩ with
      | .str s => some (s, cs.drop raw.length)
      | _ => none
    else none

/-- Elements of a flow list after the opening bracket (fuel-bounded
iteration; the fuel is the remaining text's length plus one at every
call site). -/
def flowLoop : Nat → List Char → Option (List String)
  | 0, _ => none
  | n + 1, cs =>
    match cs.dropWhile (· = ' ') with
    | ']' :: rest => if rest = [] then some [] else none
    | cs' =>
      match flowElem cs' with
      | some (s, rest) =>
        match rest with
        | ',' :: rest2 => (flowLoop n rest2).map (s :: ·)
        | ']' :: rest2 => if rest2 = [] then some [s] else none
        | _ => none
      | none => none

def flowParse (v : List Char) : Option (List String) :=
  match v with
  | '[' :: rest => flowLoop (rest.length + 1) rest
  | _ => none

/-- Split a (dedented) line into its key and its trimmed value text. -/
def splitKV (cs : List Char) : Option (String × List Char) :=
  let key := cs.takeWhile (· ≠ ':')
  if key = [] then none
  else
    match cs.drop key.length with
    | ':' :: rest =>
      match rest with
      | [] => some (⟨key⟩, [])
      | ' ' :: v => some (⟨key⟩, ywsTrim v)
      | _ => none
    | _ => none

set_option maxRecDepth 100000

def qRound (s : String) : Bool :=
  ywsTrim (quote s).data = (quote s).data &&
  parseValueScalar (quote s).data = some (.str s)

def flowValue (ts : List String) : String :=
  "[" ++ joinCommaSp (ts.map quote) ++ "]"

def flowRound (ts : List String) : Bool :=
  ywsTrim (flowValue ts).data = (flowValue ts).data &&
  !(flowValue ts).data.contains '\n' &&
  flowParse (flowValue ts).data = some ts

theorem takeWhile_colon (a r : List Char) (h : ':' ∉ a) :
    (a ++ ':' :: r).takeWhile (· ≠ ':') = a ∧
    (a ++ ':' :: r).drop a.length = ':' :: r := by
  constructor
  · induction a with
    | nil => simp [List.takeWhile]
    | cons c cs ih =>
      simp only [List.mem_cons] at h
      push_neg at h
      have hcne : c ≠ ':' := fun hc => h.1 hc.symm
      rw [List.cons_append, List.takeWhile_cons_of_pos (by simpa using hcne)]
      rw [ih h.2]
  · exact List.drop_left a (':' :: r)

theorem splitKV_bare (k : String) (hk1 : ':' ∉ k.data) (hk2 : k.data ≠ []) :
    splitKV (k.data ++ [':']) = some (k, []) := by
  have := takeWhile_colon k.data [] hk1
  rw [splitKV]
  simp only [List.append_nil] at this
  simp only [this.1, this.2]
  rw [if_neg (by simpa using hk2)]

theorem data_mk (l : List Char) : (String.mk l).data = l := rfl

theorem qRound_parse (s : String) (h : qRound s = true) :
    parseValueScalar (quote s).data = some (.str s) := by
  simp [qRound, Bool.and_eq_true] at h
  exact h.2

theorem flowRound_nlfree (ts : List String) (h : flowRound ts = true) :
    '\n' ∉ (flowValue ts).data := by
  simp [flowRound, Bool.and_eq_true] at h
  exact h.1.2

theorem parseQuotedEnd_nlfree : ∀ (l m : List Char),
    parseQuotedEnd l = some m → '\n' ∉ l := by
  intro l
  induction l using parseQuotedEnd.induct with
  | case1 =>
    intro m hm
    simp
  | case2 =>
    intro m hm
    decide
  | case3 rest hrest =>
    intro m hm
    simp [parseQuotedEnd, hrest] at hm
  | case4 rest ih =>
    intro m hm
    simp +decide [parseQuotedEnd] at hm
    rcases hopt : parseQuotedEnd rest with _ | m2 <;> rw [hopt] at hm
    · simp at hm
    · simp only [List.mem_cons]
      push_neg
      exact ⟨by decide, by decide, ih m2 hopt⟩
  | case5 rest hc ih =>
    intro m hm
    simp +decide [parseQuotedEnd] at hm
    rcases hopt : parseQuotedEnd rest with _ | m2 <;> rw [hopt] at hm
    · simp at hm
    · simp only [List.mem_cons]
      push_neg
      exact ⟨by decide, by decide, ih m2 hopt⟩
  | case6 rest hc1 hc2 ih =>
    intro m hm
    simp +decide [parseQuotedEnd] at hm
    rcases hopt : parseQuotedEnd rest with _ | m2 <;> rw [hopt] at hm
    · simp at hm
    · simp only [List.mem_cons]
      push_neg
      exact ⟨by decide, by decide, ih m2 hopt⟩
  | case7 c rest hc1 hc2 hc3 =>
    intro m hm
    simp [parseQuotedEnd, hc1, hc2, hc3] at hm
  | case8 tail =>
    intro m hm
    simp [parseQuotedEnd] at hm
  | case9 c rest hq hbs hnl ih =>
    intro m hm
    have hstep : parseQuotedEnd (c :: rest) = (parseQuotedEnd rest).map (c :: ·) := by
      rw [parseQuotedEnd.eq_def]
      split
      · rename_i heq
        exact absurd heq (by simp)
      · rename_i rest1 heq
        simp only [List.cons.injEq] at heq
        exact absurd heq.1 hq
      · rename_i c2 rest2 heq
        simp only [List.cons.injEq] at heq
        exact (hbs c2 rest2 heq.1 heq.2).elim
      · rename_i tail heq
        simp only [List.cons.injEq] at heq
        exact (hnl heq.1).elim
      · rename_i c2 rest2 heq
        simp only [List.cons.injEq] at heq
        obtain ⟨h1, h2⟩ := heq
        subst h1
        subst h2
        rfl
    rw [hstep] at hm
    rcases hopt : parseQuotedEnd rest with _ | m2 <;> rw [hopt] at hm
    · simp at hm
    · simp only [List.mem_cons]
      push_neg
      exact ⟨fun h2 => hnl h2.symm, ih m2 hopt⟩

theorem parseValueScalar_nlfree (v : List Char) (sc : YScalar)
    (h : parseValueScalar v = some sc) : '\n' ∉ v := by
  rw [parseValueScalar.eq_def] at h
  split at h
  · rename_i rest
    rcases hopt : parseQuotedEnd rest with _ | m <;> rw [hopt] at h
    · simp at h
    · simp only [List.mem_cons]
      push_neg
      exact ⟨by decide, parseQuotedEnd_nlfree rest m hopt⟩
  · split at h
    · rename_i hadm
      simp only [plainAdmissible, Bool.and_eq_true] at hadm
      have h4 := hadm.1.2
      simpa [List.contains, List.elem_eq_mem] using h4
    · exact absurd h (by simp)

theorem qRound_nlfree (s : String) (h : qRound s = true) :
    '\n' ∉ (quote s).data :=
  parseValueScalar_nlfree _ _ (qRound_parse s h)

end OTExport

